import Mathlib

/-!
Shallow embedding of `src/stack.c` (elfutils eu-stack): per-thread frame
collection with a bounded or growable buffer, symbol-name resolution
(quiet / debug-name / generic lookup, demangling), inline-frame expansion,
the printed frame lines, per-thread diagnostics and the final exit status.

External collaborators (the dwfl unwinder and debug-info provider, and the
demangler) are modelled as an oracle structure `World`; the program's own
logic is translated function by function from the source.
-/

namespace Stack

/-- DWARF tags distinguished by stack.c (`DW_TAG_subprogram`,
`DW_TAG_inlined_subroutine`, `DW_TAG_entry_point`; everything else is
lumped into `other`). -/
inductive Tag where
  | subprogram
  | inlined_subroutine
  | entry_point
  | other
deriving DecidableEq, Repr

/-- A DWARF DIE as far as stack.c inspects it: its tag, its linkage name
attribute (`DW_AT_MIPS_linkage_name` / `DW_AT_linkage_name`, as resolved by
`dwarf_formstring`) and its plain `dwarf_diename`. -/
structure Die where
  tag : Tag
  linkage_name : Option String
  diename : Option String
deriving DecidableEq, Repr

/-- Model of `struct frame`: a captured program counter with its activation flag. -/
structure Frame where
  pc : Nat
  isactivation : Bool
deriving DecidableEq, Repr

/-- Model of `struct frames`: the captured frames in capture order together with the
allocated capacity (the C array's element count; the list replaces the raw
array, `allocated` is carried to model the growth policy). -/
structure Frames where
  frames : List Frame
  allocated : Nat
deriving DecidableEq, Repr

/-- A module handle (`Dwfl_Module *`), abstract identity. -/
abbrev Module := Nat

/-- The external unwinder / debug-info / demangler capabilities consumed by
stack.c, as pure oracles.  `addrmodule` is `dwfl_addrmodule`,
`module_addrname` is `dwfl_module_addrname`, `addrdie` is
`dwfl_module_addrdie`, `getscopes` is `dwarf_getscopes` at an
(already bias-adjusted) address, `getscopes_die` is `dwarf_getscopes_die`
(empty list models a non-positive scope count), `demangle` is
`__cxa_demangle` (`none` models failure), `module_class32` tells whether the
module's ELF class is 32-bit (`none` models an unavailable ELF header). -/
structure World where
  addrmodule : Nat → Option Module
  module_addrname : Module → Nat → Option String
  addrdie : Module → Nat → Option Die
  getscopes : Die → Nat → List Die
  getscopes_die : Die → List Die
  demangle : String → Option String
  module_class32 : Module → Option Bool

/-- The output-selection flags and the frame ceiling (`maxframes`,
default 256; `-n 0` means unlimited). -/
structure Config where
  show_activation : Bool := false
  show_source : Bool := false
  show_quiet : Bool := false
  show_raw : Bool := false
  show_debugname : Bool := false
  show_inlines : Bool := false
  maxframes : Nat := 256
deriving DecidableEq, Repr

/-- Model of `die_name`: the linkage name (MIPS or standard attribute) if it
resolves to a string, else the plain DIE name. -/
def die_name (die : Die) : Option String :=
  match die.linkage_name with
  | some n => some n
  | none => die.diename

/-- The tag test duplicated at both scan sites of stack.c:
subprogram / inlined-subroutine / entry-point. -/
def isFuncTag : Tag → Bool
  | Tag.subprogram => true
  | Tag.inlined_subroutine => true
  | Tag.entry_point => true
  | Tag.other => false

/-- The GNU v3 ABI mangling test of `print_frame`:
`symname[0] == '_' && symname[1] == 'Z'`. -/
def mangled (s : String) : Bool :=
  s.data.take 2 == ['_', 'Z']

/-- The `pc_adjusted` computation of `print_frames`:
`pc - (isactivation ? 0 : 1)` on a 64-bit `Dwarf_Addr`. -/
def adjust_pc (pc : Nat) (isactivation : Bool) : Nat :=
  (pc + 2 ^ 64 - (if isactivation then 0 else 1)) % 2 ^ 64

/-- Result of `frame_callback` as seen by the unwinder driver. -/
inductive CbResult where
  | ok
  | abort
deriving DecidableEq, Repr

/-- Model of `frame_callback`: store the frame, stop (DWARF_CB_ABORT) when the count
reaches `maxframes`, else double the allocation when the buffer is full. -/
def frame_callback (maxframes : Nat) (f : Frame) (st : Frames) : Frames × CbResult :=
  let st := { st with frames := st.frames ++ [f] }
  if st.frames.length = maxframes then (st, CbResult.abort)
  else if st.frames.length = st.allocated then
    ({ st with allocated := st.allocated * 2 }, CbResult.ok)
  else (st, CbResult.ok)

/-- The driving loop of `dwfl_thread_getframes` over the frames the
unwinder can produce: feed each frame to `frame_callback` until it aborts
or the frames run out.  Returns the final buffer and whether the callback
aborted (`DWARF_CB_ABORT`). -/
def getframes (maxframes : Nat) : List Frame → Frames → Frames × Bool
  | [], st => (st, false)
  | f :: rest, st =>
    match frame_callback maxframes f st with
    | (st1, CbResult.ok) => getframes maxframes rest st1
    | (st1, CbResult.abort) => (st1, true)

/-- The buffer set up in `main`: empty, with `allocated` equal to
`maxframes` when positive, else the fixed initial allocation 2048. -/
def init_frames (maxframes : Nat) : Frames :=
  { frames := [], allocated := if maxframes = 0 then 2048 else maxframes }

/-- The name post-processing of `print_frame`: when raw mode is off and the
name bears the `_Z` prefix, try the demangler; on success substitute the
demangled form, on failure keep the original name.  Raw mode, or an
unmangled name, renders the name verbatim. -/
def rendered_name (cfg : Config) (w : World) (symname : Option String) : Option String :=
  match symname with
  | none => none
  | some s =>
    if !cfg.show_raw && mangled s then
      match w.demangle s with
      | some d => some d
      | none => some s
    else some s

/-- One printed frame line: the frame number, the printed (unadjusted)
program counter, and the rendered symbol name if any.  The module, build-id
and source annotations and the printf field widths are pure formatting and
are not modelled. -/
structure Line where
  nr : Nat
  pc : Nat
  name : Option String
deriving DecidableEq, Repr

/-- Model of `print_frame`: renders one line, printing the *unadjusted* pc and the
(possibly demangled) symbol name. -/
def print_frame (cfg : Config) (w : World) (nr : Nat) (pc : Nat)
    (symname : Option String) : Line :=
  { nr := nr, pc := pc, name := rendered_name cfg w symname }

/-- The scope scan of `print_frames` under `show_debugname`: walk the scope
chain innermost first, and return the name (with its scope DIE) of the
first function-like scope whose `die_name` is non-null; scopes of other
tags, and function-like scopes without a name, are skipped. -/
def find_scope_name : List Die → Option (String × Die)
  | [] => none
  | scope :: rest =>
    if isFuncTag scope.tag then
      match die_name scope with
      | some n => some (n, scope)
      | none => find_scope_name rest
    else find_scope_name rest

/-- The symname / cudie / die triple computed per frame in `print_frames`. -/
structure Resolved where
  symname : Option String
  cudie : Option Die
  die : Option Die
deriving DecidableEq, Repr

/-- The scope chain `print_frames` scans under `show_debugname`:
`dwfl_module_addrdie` followed by `dwarf_getscopes` on the compile-unit
DIE (a null compile unit yields no scopes). -/
def scopes_at (w : World) (m : Module) (pc_adjusted : Nat) : List Die :=
  match w.addrdie m pc_adjusted with
  | none => []
  | some cu => w.getscopes cu pc_adjusted

/-- The PC→SYMNAME resolution of `print_frames`: nothing without a module
or in quiet mode; under `show_debugname` the scope chain at the adjusted PC
is scanned (remembering the compile unit and the found scope DIE); when
that yields no name, `dwfl_module_addrname` is consulted. -/
def resolve (cfg : Config) (w : World) (mod : Option Module) (pc_adjusted : Nat) :
    Resolved :=
  match mod with
  | none => ⟨none, none, none⟩
  | some m =>
    if cfg.show_quiet then ⟨none, none, none⟩
    else
      let step1 : Option String × Option Die × Option Die :=
        if cfg.show_debugname then
          let cudie := w.addrdie m pc_adjusted
          match find_scope_name (scopes_at w m pc_adjusted) with
          | some (n, d) => (some n, cudie, some d)
          | none => (none, cudie, none)
        else (none, none, none)
      let symname :=
        match step1.1 with
        | none => w.module_addrname m pc_adjusted
        | some n => some n
      ⟨symname, step1.2.1, step1.2.2⟩

/-- The loop of `print_inline_frames` from `scopes[1]` upward: before each
scope the ceiling is checked (`maxframes == 0 || *nr < maxframes`);
non-function-like tags are skipped; each function-like scope is printed
with its `die_name`, and the walk stops right after the first
subprogram-tagged scope.  Returns the printed lines and the new frame
number. -/
def inline_loop (cfg : Config) (w : World) (pc : Nat) (cudie : Option Die) :
    List Die → Die → Nat → List Line × Nat
  | [], _, nr => ([], nr)
  | scope :: rest, last_scope, nr =>
    if cfg.maxframes ≠ 0 ∧ cfg.maxframes ≤ nr then ([], nr)
    else
      if isFuncTag scope.tag then
        let symname := die_name scope
        let line := print_frame cfg w nr pc symname
        if scope.tag = Tag.subprogram then ([line], nr + 1)
        else
          let r := inline_loop cfg w pc cudie rest scope (nr + 1)
          (line :: r.1, r.2)
      else inline_loop cfg w pc cudie rest last_scope nr

/-- Model of `print_inline_frames`: fetch the scope chain of the resolved DIE
(`dwarf_getscopes_die`, whose first entry is the DIE itself); when it is
non-empty print the innermost frame with the already resolved name, then
walk the outer scopes with `inline_loop`.  A non-positive scope count
prints nothing. -/
def print_inline_frames (cfg : Config) (w : World) (nr : Nat) (pc : Nat)
    (symname : Option String) (cudie : Option Die) (die : Die) : List Line × Nat :=
  match w.getscopes_die die with
  | [] => ([], nr)
  | s0 :: rest =>
    let line0 := print_frame cfg w nr pc symname
    let r := inline_loop cfg w pc cudie rest s0 (nr + 1)
    (line0 :: r.1, r.2)

/-- The printing loop of `print_frames` over the captured frames: before
each frame the ceiling is checked (`maxframes == 0 || frame_nr < maxframes`);
each frame's PC is adjusted, its module and name resolved, and either the
inline expansion or a single line is printed.  Returns the lines and the
final `frame_nr`. -/
def print_frames_loop (cfg : Config) (w : World) : List Frame → Nat → List Line × Nat
  | [], frame_nr => ([], frame_nr)
  | f :: rest, frame_nr =>
    if cfg.maxframes ≠ 0 ∧ cfg.maxframes ≤ frame_nr then ([], frame_nr)
    else
      let pc := f.pc
      let pc_adjusted := adjust_pc pc f.isactivation
      let mod := w.addrmodule pc_adjusted
      let r := resolve cfg w mod pc_adjusted
      if cfg.show_inlines then
        match r.die with
        | some d =>
          let ri := print_inline_frames cfg w frame_nr pc r.symname r.cudie d
          let rr := print_frames_loop cfg w rest ri.2
          (ri.1 ++ rr.1, rr.2)
        | none =>
          let line := print_frame cfg w frame_nr pc r.symname
          let rr := print_frames_loop cfg w rest (frame_nr + 1)
          (line :: rr.1, rr.2)
      else
        let line := print_frame cfg w frame_nr pc r.symname
        let rr := print_frames_loop cfg w rest (frame_nr + 1)
        (line :: rr.1, rr.2)

/-- The non-fatal diagnostics `print_frames` can record via `error (0, …)`:
the "shown max number of frames" notice and the unwind-failure notice. -/
inductive Diag where
  | max_frames
  | unwind
deriving DecidableEq, Repr

/-- What one `print_frames` call produced: the lines, the diagnostics
recorded, and whether it set the global `frames_shown` flag. -/
structure Report where
  lines : List Line
  diags : List Diag
  shown : Bool
deriving DecidableEq, Repr

/-- Model of `print_frames`: sets `frames_shown` when any frame was captured, prints
the frames, then records the "max frames" notice when the printed frame
count reached `maxframes`, else the unwind-failure notice when the unwinder
reported an error. -/
def print_frames (cfg : Config) (w : World) (frames : List Frame) (dwflerr : Bool) :
    Report :=
  let r := print_frames_loop cfg w frames 0
  let diags :=
    if 0 < frames.length ∧ r.2 = cfg.maxframes then [Diag.max_frames]
    else if dwflerr then [Diag.unwind] else []
  { lines := r.1, diags := diags, shown := frames.length != 0 }

/-- One target thread as the external unwinder would drive it: the frames
it can produce in order, and whether, after those, the unwinder would
report an error (`-1` from `dwfl_thread_getframes`) rather than normal
completion. -/
structure ThreadInput where
  avail : List Frame
  err : Bool
deriving DecidableEq, Repr

/-- Model of `thread_callback`: reset the frame count, collect the thread's frames,
map the collection outcome to the error code (`DWARF_CB_ABORT` is treated
like normal completion), and print.  Returns the reusable buffer and the
thread's report. -/
def do_thread (cfg : Config) (w : World) (t : ThreadInput) (st : Frames) :
    Frames × Report :=
  let st0 := { st with frames := ([] : List Frame) }
  let r := getframes cfg.maxframes t.avail st0
  let err := if r.2 then false else t.err
  (r.1, print_frames cfg w r.1.frames err)

/-- The walk of `dwfl_getthreads` over all target threads, reusing one
frame buffer. -/
def run_threads (cfg : Config) (w : World) : List ThreadInput → Frames → List Report
  | [], _ => []
  | t :: rest, st =>
    let r := do_thread cfg w t st
    r.2 :: run_threads cfg w rest r.1

/-- The observable outcome of a whole run: the per-thread reports, the
final `frames_shown` flag, the total diagnostic count
(`error_message_count`) and the exit status. -/
structure RunResult where
  reports : List Report
  shown : Bool
  errors : Nat
  status : Nat
deriving DecidableEq, Repr

/-- The tail of `main`: iterate the threads, then exit with BAD (2) when no
frame was ever shown, with ERROR (1) when any diagnostic was recorded, else
with OK (0).  `enum_err` models `dwfl_getthreads` itself failing (one more
`error (0, …)` diagnostic). -/
def run (cfg : Config) (w : World) (threads : List ThreadInput) (enum_err : Bool) :
    RunResult :=
  let reports := run_threads cfg w threads (init_frames cfg.maxframes)
  let shown := reports.any (fun r => r.shown)
  let errors := (reports.map (fun r => r.diags.length)).sum + (if enum_err then 1 else 0)
  { reports := reports, shown := shown, errors := errors,
    status := if shown = false then 2 else if errors ≠ 0 then 1 else 0 }

/-- Model of `get_addr_width`: `width` is the static cache (0 means not yet
computed).  On a zero cache and a present module whose ELF header is
readable, the width becomes 8 for ELFCLASS32 else 16; a still-zero width
falls back to 16.  The returned value is also the new cache. -/
def get_addr_width (w : World) (mod : Option Module) (width : Nat) : Nat :=
  let width1 :=
    if width = 0 then
      match mod with
      | some m =>
        match w.module_class32 m with
        | some true => 8
        | some false => 16
        | none => width
      | none => width
    else width
  if width1 = 0 then 16 else width1

/-- A sequence of `get_addr_width` calls threading the static cache,
starting from a given cache value; returns each call's result. -/
def addr_width_run (w : World) : List (Option Module) → Nat → List Nat
  | [], _ => []
  | m :: rest, width =>
    let width1 := get_addr_width w m width
    width1 :: addr_width_run w rest width1

/-- Modelled from the claim's words (for comparison with `get_addr_width`,
not from the source): the width the claim says a run uses — computed from
the first module in the call sequence whose address class can be
determined: 8 hex digits for a 32-bit ELF class, else 16. -/
def claimed_addr_width (w : World) (mods : List (Option Module)) : Nat :=
  match mods.filterMap (fun m => m.bind w.module_class32) with
  | [] => 16
  | b :: _ => if b then 8 else 16

/-- The walk of `print_inline_frames`' loop as a pure list function: the
chain of function-like scopes it prints, outward from the scope after the
innermost DIE, truncated at (and including) the first subprogram. -/
def inlineChain : List Die → List Die
  | [] => []
  | s :: rest =>
    if isFuncTag s.tag then
      if s.tag = Tag.subprogram then [s]
      else s :: inlineChain rest
    else inlineChain rest

/-- A bare world: no modules, no names, no scopes, failing demangler,
unreadable ELF headers. -/
def w0 : World :=
  { addrmodule := fun _ => none
    module_addrname := fun _ _ => none
    addrdie := fun _ _ => none
    getscopes := fun _ _ => []
    getscopes_die := fun _ => []
    demangle := fun _ => none
    module_class32 := fun _ => none }

/-- The default configuration (all flags off, `maxframes = 256`). -/
def cfg0 : Config := {}

/-- Scenario A's thread: frames 0x4010, 0x4020, 0x4030, none an
activation, clean unwind. -/
def threadA : ThreadInput :=
  ⟨[⟨0x4010, false⟩, ⟨0x4020, false⟩, ⟨0x4030, false⟩], false⟩

/-- Scenario A: the default configuration (ceiling 256), one thread, a
world with no resolvable names. -/
def runA : RunResult := run cfg0 w0 [threadA] false

/-- A ceiling-2 configuration, defaults otherwise. -/
def cfg2 : Config := { maxframes := 2 }

/-- A ceiling-3 configuration, defaults otherwise. -/
def cfg3 : Config := { maxframes := 3 }

/-- A world whose demangler knows exactly one mangled name. -/
def w5 : World :=
  { w0 with demangle := fun s => if s = "_Z1fv" then some "f()" else none }

/-- The innermost inlined DIE of the C6 witness scenario. -/
def die_inl : Die := ⟨Tag.inlined_subroutine, none, some "inner"⟩

/-- A non-function lexical scope, skipped by the inline walk. -/
def die_lex : Die := ⟨Tag.other, none, none⟩

/-- A middle inlined scope with a linkage name. -/
def die_mid : Die := ⟨Tag.inlined_subroutine, some "_Z3midv", none⟩

/-- The subprogram everything was inlined into. -/
def die_sub : Die := ⟨Tag.subprogram, none, some "main"⟩

/-- A scope beyond the subprogram, never reached by the walk. -/
def die_beyond : Die := ⟨Tag.other, none, some "beyond"⟩

/-- A world whose scope chain for `die_inl` is
[itself, lexical block, inlined scope, subprogram, outer scope]. -/
def w6 : World :=
  { w0 with
    getscopes_die := fun d =>
      if d = die_inl then [die_inl, die_lex, die_mid, die_sub, die_beyond] else [] }

/-- The compile-unit DIE of the C7 witness scenario. -/
def cu7 : Die := ⟨Tag.other, none, some "cu"⟩

/-- A function-like scope without any name, skipped by the scan. -/
def scope_nameless : Die := ⟨Tag.inlined_subroutine, none, none⟩

/-- The named subprogram the scan finds. -/
def scope_named : Die := ⟨Tag.subprogram, some "_Z4funcv", some "func"⟩

/-- Debug-name mode on, defaults otherwise. -/
def cfg7 : Config := { show_debugname := true }

/-- A world with one module (id 1) whose scope chain at 0x400f has a
nameless function-like scope before a named subprogram, plus a symbol
table name. -/
def w7 : World :=
  { w0 with
    addrdie := fun m pc => if m = 1 ∧ pc = 0x400f then some cu7 else none
    getscopes := fun cu pc =>
      if cu = cu7 ∧ pc = 0x400f then [scope_nameless, scope_named] else []
    module_addrname := fun m _ => if m = 1 then some "elfsym" else none }

/-- A world whose module 0 has an unreadable ELF header and whose module 1
is 32-bit. -/
def w9 : World :=
  { w0 with module_class32 := fun m => if m = 0 then none else some true }

end Stack

namespace Stack

/-- The `frame_callback` step written as a case split on the
post-increment frame count. -/
theorem frame_callback_eq (M : Nat) (f : Frame) (st : Frames) :
    frame_callback M f st =
      if st.frames.length + 1 = M then
        ({ st with frames := st.frames ++ [f] }, CbResult.abort)
      else if st.frames.length + 1 = st.allocated then
        ({ frames := st.frames ++ [f], allocated := st.allocated * 2 }, CbResult.ok)
      else ({ st with frames := st.frames ++ [f] }, CbResult.ok) := by
  simp only [frame_callback, List.length_append, List.length_cons, List.length_nil,
    Nat.zero_add]

/-- One unfolding of the collection loop on a cons cell. -/
theorem getframes_cons (M : Nat) (f : Frame) (rest : List Frame) (st : Frames) :
    getframes M (f :: rest) st =
      match frame_callback M f st with
      | (st1, CbResult.ok) => getframes M rest st1
      | (st1, CbResult.abort) => (st1, true) := rfl

/-- With an unlimited ceiling the collection loop appends every available
frame, never aborts, doubles the allocation zero or more times, and keeps
the frame count strictly below the allocation. -/
theorem getframes_zero (avail : List Frame) :
    ∀ st : Frames, st.frames.length < st.allocated →
      (getframes 0 avail st).1.frames = st.frames ++ avail ∧
      (getframes 0 avail st).2 = false ∧
      ∃ k, (getframes 0 avail st).1.allocated = st.allocated * 2 ^ k ∧
        (getframes 0 avail st).1.frames.length < (getframes 0 avail st).1.allocated := by
  induction avail with
  | nil =>
    intro st h
    refine ⟨by simp [getframes], rfl, 0, by simp [getframes], ?_⟩
    simpa [getframes] using h
  | cons f rest ih =>
    intro st h
    have hne : ¬ st.frames.length + 1 = 0 := by omega
    by_cases hfull : st.frames.length + 1 = st.allocated
    · have hstep :
          getframes 0 (f :: rest) st
            = getframes 0 rest
                { frames := st.frames ++ [f], allocated := st.allocated * 2 } := by
        rw [getframes_cons, frame_callback_eq, if_neg hne, if_pos hfull]
      have hinv :
          (Frames.mk (st.frames ++ [f]) (st.allocated * 2)).frames.length
            < (Frames.mk (st.frames ++ [f]) (st.allocated * 2)).allocated := by
        simp only [List.length_append, List.length_cons, List.length_nil]
        omega
      obtain ⟨h1, h2, k, h3, h4⟩ := ih _ hinv
      refine ⟨?_, by rw [hstep]; exact h2, k + 1, ?_, ?_⟩
      · rw [hstep, h1]; simp
      · rw [hstep, h3]; ring
      · rw [hstep]; exact h4
    · have hstep :
        getframes 0 (f :: rest) st
          = getframes 0 rest { st with frames := st.frames ++ [f] } := by
        rw [getframes_cons, frame_callback_eq, if_neg hne, if_neg hfull]
      have hinv :
          ({ st with frames := st.frames ++ [f] } : Frames).frames.length
            < ({ st with frames := st.frames ++ [f] } : Frames).allocated := by
        simp only [List.length_append, List.length_cons, List.length_nil]
        omega
      obtain ⟨h1, h2, k, h3, h4⟩ := ih _ hinv
      refine ⟨?_, by rw [hstep]; exact h2, k, ?_, ?_⟩
      · rw [hstep, h1]; simp
      · rw [hstep, h3]
      · rw [hstep]; exact h4

/-- With a positive ceiling the collection loop captures exactly the
available frames up to the ceiling, in order, and aborts exactly when the
remaining room is covered by the available frames. -/
theorem getframes_pos (M : Nat) :
    ∀ (avail : List Frame) (st : Frames), st.frames.length < M →
      (getframes M avail st).1.frames
          = st.frames ++ avail.take (M - st.frames.length) ∧
      ((getframes M avail st).2 = true ↔ M - st.frames.length ≤ avail.length) := by
  intro avail
  induction avail with
  | nil =>
    intro st h
    refine ⟨by simp [getframes], ?_⟩
    simp only [getframes, List.length_nil]
    refine ⟨fun hc => absurd hc (by simp), fun hc => absurd hc (by omega)⟩
  | cons f rest ih =>
    intro st h
    by_cases hmax : st.frames.length + 1 = M
    · have hstep :
          getframes M (f :: rest) st
            = ({ st with frames := st.frames ++ [f] }, true) := by
        rw [getframes_cons, frame_callback_eq, if_pos hmax]
      have htake : M - st.frames.length = 1 := by omega
      rw [hstep]
      exact ⟨by simp [htake], by simp [htake]⟩
    · have hro : M - st.frames.length = (M - (st.frames.length + 1)) + 1 := by omega
      by_cases hfull : st.frames.length + 1 = st.allocated
      · have hstep :
            getframes M (f :: rest) st
              = getframes M rest
                  { frames := st.frames ++ [f], allocated := st.allocated * 2 } := by
          rw [getframes_cons, frame_callback_eq, if_neg hmax, if_pos hfull]
        obtain ⟨h1, h2⟩ := ih { frames := st.frames ++ [f], allocated := st.allocated * 2 }
          (by simp only [List.length_append, List.length_cons, List.length_nil]; omega)
        refine ⟨?_, ?_⟩
        · rw [hstep, h1]
          simp only [List.length_append, List.length_cons, List.length_nil, Nat.zero_add,
            hro, List.take_succ_cons]
          simp
        · rw [hstep, h2]
          simp only [List.length_append, List.length_cons, List.length_nil]
          omega
      · have hstep :
            getframes M (f :: rest) st
              = getframes M rest { st with frames := st.frames ++ [f] } := by
          rw [getframes_cons, frame_callback_eq, if_neg hmax, if_neg hfull]
        obtain ⟨h1, h2⟩ := ih { st with frames := st.frames ++ [f] }
          (by simp only [List.length_append, List.length_cons, List.length_nil]; omega)
        refine ⟨?_, ?_⟩
        · rw [hstep, h1]
          simp only [List.length_append, List.length_cons, List.length_nil, Nat.zero_add,
            hro, List.take_succ_cons]
          simp
        · rw [hstep, h2]
          simp only [List.length_append, List.length_cons, List.length_nil]
          omega

/-- One unfolding of the printing loop on a cons cell, with inline
expansion disabled. -/
theorem print_frames_loop_cons_noinline (cfg : Config) (w : World)
    (hI : cfg.show_inlines = false) (f : Frame) (rest : List Frame) (n : Nat) :
    print_frames_loop cfg w (f :: rest) n =
      if cfg.maxframes ≠ 0 ∧ cfg.maxframes ≤ n then ([], n)
      else
        let pc_adjusted := adjust_pc f.pc f.isactivation
        let r := resolve cfg w (w.addrmodule pc_adjusted) pc_adjusted
        let rr := print_frames_loop cfg w rest (n + 1)
        (print_frame cfg w n f.pc r.symname :: rr.1, rr.2) := by
  rw [print_frames_loop]
  simp only [hI, Bool.false_eq_true, if_false]

/-- The final frame number of the printing loop with inline expansion
disabled: all frames are numbered consecutively, clipped at the ceiling. -/
theorem print_frames_loop_count (cfg : Config) (w : World)
    (hI : cfg.show_inlines = false) :
    ∀ (fl : List Frame) (n : Nat),
      (cfg.maxframes = 0 → (print_frames_loop cfg w fl n).2 = n + fl.length) ∧
      (0 < cfg.maxframes → n ≤ cfg.maxframes →
        (print_frames_loop cfg w fl n).2 = min (n + fl.length) cfg.maxframes) := by
  intro fl
  induction fl with
  | nil =>
    intro n
    refine ⟨fun _ => by simp [print_frames_loop], fun hM hn => ?_⟩
    simp only [print_frames_loop, List.length_nil, Nat.add_zero]
    omega
  | cons f rest ih =>
    intro n
    constructor
    · intro h0
      have hcond : ¬ (cfg.maxframes ≠ 0 ∧ cfg.maxframes ≤ n) := by
        simp [h0]
      rw [print_frames_loop_cons_noinline cfg w hI, if_neg hcond]
      have hrec := (ih (n + 1)).1 h0
      simp only [List.length_cons]
      simp only [hrec]
      omega
    · intro hM hn
      by_cases hstop : cfg.maxframes ≤ n
      · have hcond : cfg.maxframes ≠ 0 ∧ cfg.maxframes ≤ n := ⟨by omega, hstop⟩
        rw [print_frames_loop_cons_noinline cfg w hI, if_pos hcond]
        simp only [List.length_cons]
        omega
      · have hcond : ¬ (cfg.maxframes ≠ 0 ∧ cfg.maxframes ≤ n) := by
          intro hc; exact hstop hc.2
        rw [print_frames_loop_cons_noinline cfg w hI, if_neg hcond]
        have hrec := (ih (n + 1)).2 hM (by omega)
        simp only [List.length_cons]
        simp only [hrec]
        omega

/-- The collection loop keeps the allocation positive. -/
theorem getframes_alloc_pos (M : Nat) :
    ∀ (avail : List Frame) (st : Frames), 0 < st.allocated →
      0 < (getframes M avail st).1.allocated := by
  intro avail
  induction avail with
  | nil => intro st h; simpa [getframes] using h
  | cons f rest ih =>
    intro st h
    rw [getframes_cons, frame_callback_eq]
    by_cases hmax : st.frames.length + 1 = M
    · rw [if_pos hmax]; exact h
    · rw [if_neg hmax]
      by_cases hfull : st.frames.length + 1 = st.allocated
      · rw [if_pos hfull]
        refine ih _ ?_
        show 0 < st.allocated * 2
        omega
      · rw [if_neg hfull]; exact ih _ h

/-- The `do_thread` step sets the thread's `frames_shown` contribution exactly when
the unwinder had at least one frame to give, and keeps the buffer's
allocation positive. -/
theorem do_thread_shown (cfg : Config) (w : World) (t : ThreadInput) (st : Frames)
    (hA : 0 < st.allocated) :
    (do_thread cfg w t st).2.shown = (t.avail.length != 0) ∧
    0 < (do_thread cfg w t st).1.allocated := by
  have hA0 : 0 < ({ st with frames := ([] : List Frame) } : Frames).allocated := hA
  by_cases hM : cfg.maxframes = 0
  · obtain ⟨h1, h2, k, h3, h4⟩ :=
      getframes_zero t.avail { st with frames := ([] : List Frame) } (by simpa using hA)
    constructor
    · simp only [do_thread, print_frames, hM, h1]
      simp
    · simp only [do_thread, hM]
      exact getframes_alloc_pos _ _ _ hA0
  · obtain ⟨h1, h2⟩ :=
      getframes_pos cfg.maxframes t.avail { st with frames := ([] : List Frame) }
        (by simp; omega)
    constructor
    · simp only [do_thread, print_frames, h1]
      simp only [List.nil_append, List.length_take]
      have hgoal : (min cfg.maxframes t.avail.length != 0) = (t.avail.length != 0) := by
        rcases Nat.eq_zero_or_pos t.avail.length with h | h
        · rw [h]; simp
        · have h1 : min cfg.maxframes t.avail.length ≠ 0 := by omega
          have h2 : t.avail.length ≠ 0 := by omega
          rw [show (min cfg.maxframes t.avail.length != 0) = true from by simpa using h1,
            show (t.avail.length != 0) = true from by simpa using h2]
      simpa using hgoal
    · simp only [do_thread]
      exact getframes_alloc_pos _ _ _ hA0

/-- Across all threads, the global `frames_shown` flag ends true exactly
when some thread had at least one frame available. -/
theorem run_threads_shown (cfg : Config) (w : World) :
    ∀ (threads : List ThreadInput) (st : Frames), 0 < st.allocated →
      (run_threads cfg w threads st).any (fun r => r.shown)
        = threads.any (fun t => t.avail.length != 0) := by
  intro threads
  induction threads with
  | nil => intro st _; simp [run_threads]
  | cons t rest ih =>
    intro st hA
    obtain ⟨h1, h2⟩ := do_thread_shown cfg w t st hA
    simp only [run_threads, List.any_cons, h1, ih _ h2]

/-- The initial buffer allocation is positive for every ceiling. -/
theorem init_frames_alloc_pos (M : Nat) : 0 < (init_frames M).allocated := by
  simp only [init_frames]
  by_cases h : M = 0
  · simp [h]
  · simp only [h, if_false]
    omega

/-- C1.  Exit-status policy: a run exits BAD (2) when no thread ever
produced a frame; otherwise it exits ERROR (1) when at least one non-fatal
diagnostic was recorded and OK (0) when none was. -/
theorem exit_status_policy (cfg : Config) (w : World) (threads : List ThreadInput)
    (enum_err : Bool) :
    (run cfg w threads enum_err).status
      = if threads.all (fun t => t.avail.isEmpty) then 2
        else if (run cfg w threads enum_err).errors ≠ 0 then 1 else 0 := by
  have hshown :
      (run cfg w threads enum_err).shown
        = threads.any (fun t => t.avail.length != 0) := by
    simp only [run]
    exact run_threads_shown cfg w threads _ (init_frames_alloc_pos _)
  have hkey :
      ((run cfg w threads enum_err).shown = false)
        ↔ (threads.all (fun t => t.avail.isEmpty) = true) := by
    rw [hshown]
    simp only [List.any_eq_false, List.all_eq_true, List.isEmpty_iff]
    constructor
    · intro h t ht
      have := h t ht
      simpa [List.length_eq_zero] using this
    · intro h t ht
      simp [h t ht]
  by_cases hall : threads.all (fun t => t.avail.isEmpty) = true
  · have h2 : (run cfg w threads enum_err).shown = false := hkey.mpr hall
    simp only [run] at h2 ⊢
    simp only [hall, if_true, h2, if_pos]
  · have h2 : ¬ (run cfg w threads enum_err).shown = false := fun hc => hall (hkey.mp hc)
    simp only [Bool.not_eq_true] at hall
    rw [if_neg (by simp [hall])]
    conv_lhs => rw [run]
    conv_rhs => rw [run]
    simp only []
    rw [if_neg (by simpa [run] using h2)]

/-- The captured frames of a thread under a positive ceiling, starting
from the buffer `main` sets up: the available frames clipped at the
ceiling. -/
theorem collect_take (M : Nat) (avail : List Frame) (hC : 0 < M) :
    (getframes M avail (init_frames M)).1.frames = avail.take M ∧
    ((getframes M avail (init_frames M)).2 = true ↔ M ≤ avail.length) := by
  obtain ⟨h1, h2⟩ := getframes_pos M avail (init_frames M) (by simpa [init_frames] using hC)
  constructor
  · simpa [init_frames] using h1
  · simpa [init_frames] using h2

/-- C2.  With a positive ceiling C, collection stops after exactly
min(N, C) frames — the first min(N, C) available frames in order — and
when more than C frames were available, printing that thread records
exactly one "max frames" diagnostic. -/
theorem ceiling_collection (cfg : Config) (w : World) (avail : List Frame)
    (hC : 0 < cfg.maxframes) (hI : cfg.show_inlines = false) :
    (getframes cfg.maxframes avail (init_frames cfg.maxframes)).1.frames
        = avail.take cfg.maxframes ∧
    (getframes cfg.maxframes avail (init_frames cfg.maxframes)).1.frames.length
        = min avail.length cfg.maxframes ∧
    (cfg.maxframes < avail.length →
      (print_frames cfg w
          (getframes cfg.maxframes avail (init_frames cfg.maxframes)).1.frames
          false).diags
        = [Diag.max_frames]) := by
  obtain ⟨h1, _⟩ := collect_take cfg.maxframes avail hC
  refine ⟨h1, ?_, ?_⟩
  · rw [h1]
    simp [Nat.min_comm]
  · intro hlt
    rw [h1]
    have hlen : (avail.take cfg.maxframes).length = cfg.maxframes := by
      simp
      omega
    have hcount :=
      (print_frames_loop_count cfg w hI (avail.take cfg.maxframes) 0).2 hC (by omega)
    simp only [print_frames]
    rw [if_pos ⟨by omega, by rw [hcount, hlen]; omega⟩]

/-- C10.  With a positive ceiling C and exactly C frames available,
collection still aborts at the C-th frame, the "max frames" diagnostic is
still recorded, and an otherwise error-free run exits ERROR (1), not OK. -/
theorem ceiling_exact_edge (cfg : Config) (w : World) (avail : List Frame)
    (hC : 0 < cfg.maxframes) (hN : avail.length = cfg.maxframes)
    (hI : cfg.show_inlines = false) :
    (getframes cfg.maxframes avail (init_frames cfg.maxframes)).2 = true ∧
    (run cfg w [⟨avail, false⟩] false).errors = 1 ∧
    (run cfg w [⟨avail, false⟩] false).status = 1 := by
  obtain ⟨h1, h2⟩ := collect_take cfg.maxframes avail hC
  have htake : avail.take cfg.maxframes = avail := by
    rw [← hN]
    exact List.take_length avail
  have habort : (getframes cfg.maxframes avail (init_frames cfg.maxframes)).2 = true :=
    h2.mpr (by omega)
  have hst0 :
      ({ init_frames cfg.maxframes with frames := ([] : List Frame) } : Frames)
        = init_frames cfg.maxframes := rfl
  have hcount := (print_frames_loop_count cfg w hI avail 0).2 hC (by omega)
  have hdiag : (print_frames cfg w avail false).diags = [Diag.max_frames] := by
    simp only [print_frames]
    rw [if_pos ⟨by omega, by rw [hcount]; omega⟩]
  have hshown : (print_frames cfg w avail false).shown = true := by
    simp only [print_frames]
    have : avail.length ≠ 0 := by omega
    simpa using this
  have hdo :
      do_thread cfg w ⟨avail, false⟩ (init_frames cfg.maxframes)
        = ((getframes cfg.maxframes avail (init_frames cfg.maxframes)).1,
            print_frames cfg w avail false) := by
    simp only [do_thread, hst0, habort, h1, htake]
    simp [habort]
  have hreports :
      run_threads cfg w [⟨avail, false⟩] (init_frames cfg.maxframes)
        = [print_frames cfg w avail false] := by
    simp only [run_threads, hdo]
  refine ⟨habort, ?_, ?_⟩
  · simp only [run, hreports]
    simp [hdiag]
  · simp only [run, hreports]
    simp [hdiag, hshown]

/-- Witness for C2 at ceiling 2 with three available frames. -/
theorem ceiling_collection_witness :
    (0 < cfg2.maxframes ∧ cfg2.show_inlines = false) ∧
    ((getframes cfg2.maxframes threadA.avail (init_frames cfg2.maxframes)).1.frames
        = threadA.avail.take cfg2.maxframes ∧
     (getframes cfg2.maxframes threadA.avail (init_frames cfg2.maxframes)).1.frames.length
        = min threadA.avail.length cfg2.maxframes ∧
     (cfg2.maxframes < threadA.avail.length →
       (print_frames cfg2 w0
           (getframes cfg2.maxframes threadA.avail (init_frames cfg2.maxframes)).1.frames
           false).diags
         = [Diag.max_frames])) :=
  ⟨⟨by decide, by decide⟩,
    ceiling_collection cfg2 w0 threadA.avail (by decide) (by decide)⟩

/-- Witness for C10 at ceiling 3 with exactly three available frames. -/
theorem ceiling_exact_edge_witness :
    (0 < cfg3.maxframes ∧ threadA.avail.length = cfg3.maxframes
        ∧ cfg3.show_inlines = false) ∧
    ((getframes cfg3.maxframes threadA.avail (init_frames cfg3.maxframes)).2 = true ∧
     (run cfg3 w0 [⟨threadA.avail, false⟩] false).errors = 1 ∧
     (run cfg3 w0 [⟨threadA.avail, false⟩] false).status = 1) :=
  ⟨⟨by decide, by decide, by decide⟩,
    ceiling_exact_edge cfg3 w0 threadA.avail (by decide) (by decide) (by decide)⟩

/-- C3.  With ceiling 0 the buffer starts at the fixed allocation 2048 and
doubles as needed, so every available frame is captured, in order, with
the frame count staying below the allocation; a positive ceiling C makes
the initial allocation exactly C. -/
theorem unbounded_growth (avail : List Frame) (C : Nat) (hC : 0 < C) :
    ((init_frames 0).allocated = 2048 ∧
     (getframes 0 avail (init_frames 0)).1.frames = avail ∧
     (getframes 0 avail (init_frames 0)).2 = false ∧
     ∃ k, (getframes 0 avail (init_frames 0)).1.allocated = 2048 * 2 ^ k ∧
       avail.length < (getframes 0 avail (init_frames 0)).1.allocated) ∧
    (init_frames C).allocated = C := by
  obtain ⟨h1, h2, k, h3, h4⟩ :=
    getframes_zero avail (init_frames 0) (by simp [init_frames])
  have hframes : (getframes 0 avail (init_frames 0)).1.frames = avail := by
    simpa [init_frames] using h1
  refine ⟨⟨by simp [init_frames], hframes, h2, k, ?_, ?_⟩, ?_⟩
  · simpa [init_frames] using h3
  · rw [hframes] at h4
    exact h4
  · simp only [init_frames]
    rw [if_neg (by omega)]

/-- Witness for C3 with three available frames and ceiling 5. -/
theorem unbounded_growth_witness :
    0 < 5 ∧
    (((init_frames 0).allocated = 2048 ∧
      (getframes 0 threadA.avail (init_frames 0)).1.frames = threadA.avail ∧
      (getframes 0 threadA.avail (init_frames 0)).2 = false ∧
      ∃ k, (getframes 0 threadA.avail (init_frames 0)).1.allocated = 2048 * 2 ^ k ∧
        threadA.avail.length < (getframes 0 threadA.avail (init_frames 0)).1.allocated) ∧
     (init_frames 5).allocated = 5) :=
  ⟨by decide, unbounded_growth threadA.avail 5 (by decide)⟩

/-- C4.  The adjusted PC is the captured PC minus one for a non-activation
frame and the captured PC unchanged for an activation frame. -/
theorem adjusted_pc (pc : Nat) (h1 : 1 ≤ pc) (h2 : pc < 2 ^ 64) :
    adjust_pc pc false = pc - 1 ∧ adjust_pc pc true = pc := by
  unfold adjust_pc
  constructor
  · simp only [Bool.false_eq_true, if_false]
    omega
  · simp only [if_true]
    omega

/-- Witness for C4 at the captured PC 0x4010. -/
theorem adjusted_pc_witness :
    (1 ≤ 0x4010 ∧ 0x4010 < 2 ^ 64) ∧
    (adjust_pc 0x4010 false = 0x4010 - 1 ∧ adjust_pc 0x4010 true = 0x4010) :=
  ⟨⟨by decide, by decide⟩, adjusted_pc 0x4010 (by decide) (by decide)⟩

/-- Swapping the demangler leaves every other capability untouched. -/
theorem update_demangle_fields (w : World) (g : String → Option String) :
    ({ w with demangle := g } : World).addrmodule = w.addrmodule ∧
    ({ w with demangle := g } : World).getscopes_die = w.getscopes_die := ⟨rfl, rfl⟩

/-- Name resolution never consults the demangler. -/
theorem resolve_demangle (cfg : Config) (w : World) (g : String → Option String)
    (mod : Option Module) (pc_adjusted : Nat) :
    resolve cfg { w with demangle := g } mod pc_adjusted
      = resolve cfg w mod pc_adjusted := rfl

/-- The inline walk's frame numbering never consults the demangler. -/
theorem inline_loop_nr_demangle (cfg : Config) (w : World)
    (g : String → Option String) (pc : Nat) (cudie : Option Die) :
    ∀ (scopes : List Die) (last : Die) (nr : Nat),
      (inline_loop cfg { w with demangle := g } pc cudie scopes last nr).2
        = (inline_loop cfg w pc cudie scopes last nr).2 := by
  intro scopes
  induction scopes with
  | nil => intro last nr; rfl
  | cons s rest ih =>
    intro last nr
    by_cases hceil : cfg.maxframes ≠ 0 ∧ cfg.maxframes ≤ nr
    · simp only [inline_loop, if_pos hceil]
    · by_cases hf : isFuncTag s.tag = true
      · by_cases hs : s.tag = Tag.subprogram
        · simp only [inline_loop, if_neg hceil, hf, if_true, if_pos hs]
        · simp only [inline_loop, if_neg hceil, hf, if_true, if_neg hs]
          exact ih s (nr + 1)
      · simp only [inline_loop, if_neg hceil, Bool.not_eq_true] at hf ⊢
        simp only [hf, Bool.false_eq_true, if_false]
        exact ih last nr

/-- The inline expansion's frame numbering never consults the demangler. -/
theorem print_inline_frames_nr_demangle (cfg : Config) (w : World)
    (g : String → Option String) (nr : Nat) (pc : Nat) (symname : Option String)
    (cudie : Option Die) (die : Die) :
    (print_inline_frames cfg { w with demangle := g } nr pc symname cudie die).2
      = (print_inline_frames cfg w nr pc symname cudie die).2 := by
  have hg : ({ w with demangle := g } : World).getscopes_die = w.getscopes_die := rfl
  simp only [print_inline_frames, hg]
  cases h : w.getscopes_die die with
  | nil => rfl
  | cons s0 rest =>
    simp only [inline_loop_nr_demangle]

/-- The printing loop's frame numbering never consults the demangler. -/
theorem print_frames_loop_nr_demangle (cfg : Config) (w : World)
    (g : String → Option String) :
    ∀ (fl : List Frame) (n : Nat),
      (print_frames_loop cfg { w with demangle := g } fl n).2
        = (print_frames_loop cfg w fl n).2 := by
  intro fl
  induction fl with
  | nil => intro n; rfl
  | cons f rest ih =>
    intro n
    by_cases hceil : cfg.maxframes ≠ 0 ∧ cfg.maxframes ≤ n
    · simp only [print_frames_loop, if_pos hceil]
    · have ha : ({ w with demangle := g } : World).addrmodule = w.addrmodule := rfl
      by_cases hi : cfg.show_inlines = true
      · simp only [print_frames_loop, if_neg hceil, ha, resolve_demangle, hi, if_true]
        cases hdie :
            (resolve cfg w
              (w.addrmodule (adjust_pc f.pc f.isactivation))
              (adjust_pc f.pc f.isactivation)).die with
        | none => simp only [ih]
        | some d => simp only [print_inline_frames_nr_demangle, ih]
      · simp only [Bool.not_eq_true] at hi
        simp only [print_frames_loop, if_neg hceil, ha, resolve_demangle, hi,
          Bool.false_eq_true, if_false, ih]

/-- The recorded diagnostics never depend on the demangler. -/
theorem print_frames_diags_demangle (cfg : Config) (w : World)
    (g : String → Option String) (fl : List Frame) (e : Bool) :
    (print_frames cfg { w with demangle := g } fl e).diags
      = (print_frames cfg w fl e).diags := by
  simp only [print_frames, print_frames_loop_nr_demangle]

/-- C5.  With raw mode off and a `_Z`-prefixed name: a successful
demangling renders the demangled form (different from the mangled name
whenever the demangler changed it), a failed demangling renders the
original name and records no diagnostic; with raw mode on the mangled name
is rendered verbatim no matter what the demangler would say. -/
theorem demangle_rendering (cfg : Config) (w : World) (s d : String)
    (hm : mangled s = true) :
    (cfg.show_raw = false → w.demangle s = some d →
        rendered_name cfg w (some s) = some d ∧
        (d ≠ s → rendered_name cfg w (some s) ≠ some s)) ∧
    (cfg.show_raw = false → w.demangle s = none →
        rendered_name cfg w (some s) = some s) ∧
    (cfg.show_raw = true →
        ∀ g : String → Option String,
          rendered_name cfg { w with demangle := g } (some s) = some s) ∧
    (∀ (g : String → Option String) (fl : List Frame) (e : Bool),
        (print_frames cfg { w with demangle := g } fl e).diags
          = (print_frames cfg w fl e).diags) := by
  refine ⟨?_, ?_, ?_, fun g fl e => print_frames_diags_demangle cfg w g fl e⟩
  · intro hraw hd
    have hcond : (!cfg.show_raw && mangled s) = true := by
      rw [hraw, hm]
      rfl
    have heq : rendered_name cfg w (some s) = some d := by
      simp only [rendered_name, hcond, if_true, hd]
    exact ⟨heq, fun hne => by
      rw [heq]
      intro hc
      exact hne (Option.some.inj hc)⟩
  · intro hraw hd
    have hcond : (!cfg.show_raw && mangled s) = true := by
      rw [hraw, hm]
      rfl
    simp only [rendered_name, hcond, if_true, hd]
  · intro hraw g
    have hcond : (!cfg.show_raw && mangled s) = false := by
      rw [hraw]
      rfl
    simp only [rendered_name, hcond, Bool.false_eq_true, if_false]

/-- Witness for C5 at the mangled name `_Z1fv`. -/
theorem demangle_rendering_witness :
    mangled "_Z1fv" = true ∧
    ((cfg0.show_raw = false → w5.demangle "_Z1fv" = some "f()" →
        rendered_name cfg0 w5 (some "_Z1fv") = some "f()" ∧
        ("f()" ≠ "_Z1fv" → rendered_name cfg0 w5 (some "_Z1fv") ≠ some "_Z1fv")) ∧
     (cfg0.show_raw = false → w5.demangle "_Z1fv" = none →
        rendered_name cfg0 w5 (some "_Z1fv") = some "_Z1fv") ∧
     (cfg0.show_raw = true →
        ∀ g : String → Option String,
          rendered_name cfg0 { w5 with demangle := g } (some "_Z1fv") = some "_Z1fv") ∧
     (∀ (g : String → Option String) (fl : List Frame) (e : Bool),
        (print_frames cfg0 { w5 with demangle := g } fl e).diags
          = (print_frames cfg0 w5 fl e).diags)) :=
  ⟨by decide, demangle_rendering cfg0 w5 "_Z1fv" "f()" (by decide)⟩

/-- A scope list containing a subprogram has a non-empty print chain. -/
theorem inlineChain_ne_nil :
    ∀ scopes : List Die, (∃ s ∈ scopes, s.tag = Tag.subprogram) →
      inlineChain scopes ≠ [] := by
  intro scopes
  induction scopes with
  | nil =>
    intro h
    simp at h
  | cons s rest ih =>
    intro h
    obtain ⟨t, ht, htag⟩ := h
    by_cases hf : isFuncTag s.tag = true
    · by_cases hs : s.tag = Tag.subprogram
      · simp [inlineChain, hf, hs, isFuncTag]
      · simp [inlineChain, hf, hs]
    · have hns : s.tag ≠ Tag.subprogram := by
        intro he
        rw [he] at hf
        exact hf rfl
      have htr : t ∈ rest := by
        rcases List.mem_cons.mp ht with he | hr
        · exact absurd (he ▸ htag) hns
        · exact hr
      simp only [Bool.not_eq_true] at hf
      simp only [inlineChain, hf, Bool.false_eq_true, if_false]
      exact ih ⟨t, htr, htag⟩

/-- The inline walk prints exactly the chain of function-like scopes up to
and including the first subprogram: skipped tags print nothing, each chain
element prints one line bearing its `die_name`, and the frame number
advances once per printed line — provided the ceiling leaves room for the
whole chain. -/
theorem inline_loop_chain (cfg : Config) (w : World) (pc : Nat) (cudie : Option Die) :
    ∀ (scopes : List Die) (last : Die) (nr : Nat),
      (∃ s ∈ scopes, s.tag = Tag.subprogram) →
      (cfg.maxframes = 0 ∨ nr + (inlineChain scopes).length ≤ cfg.maxframes) →
      (inline_loop cfg w pc cudie scopes last nr).1.map (fun l => l.name)
          = (inlineChain scopes).map (fun s => rendered_name cfg w (die_name s)) ∧
      (inline_loop cfg w pc cudie scopes last nr).2
          = nr + (inlineChain scopes).length := by
  intro scopes
  induction scopes with
  | nil =>
    intro last nr h _
    simp at h
  | cons s rest ih =>
    intro last nr hex hceil
    have hchain : inlineChain (s :: rest) ≠ [] := inlineChain_ne_nil _ hex
    have hcond : ¬ (cfg.maxframes ≠ 0 ∧ cfg.maxframes ≤ nr) := by
      rcases hceil with h0 | hle
      · simp [h0]
      · intro hc
        have : 0 < (inlineChain (s :: rest)).length :=
          List.length_pos.mpr hchain
        omega
    obtain ⟨t, ht, htag⟩ := hex
    by_cases hf : isFuncTag s.tag = true
    · by_cases hs : s.tag = Tag.subprogram
      · simp only [inline_loop, if_neg hcond, hf, if_true, if_pos hs]
        simp only [inlineChain, hf, if_true, if_pos hs]
        simp [print_frame]
      · have hchainc : inlineChain (s :: rest) = s :: inlineChain rest := by
          simp only [inlineChain, hf, if_true, if_neg hs]
        have hns : s.tag ≠ Tag.subprogram := hs
        have hexr : ∃ u ∈ rest, u.tag = Tag.subprogram := by
          refine ⟨t, ?_, htag⟩
          rcases List.mem_cons.mp ht with he | hr
          · exact absurd (he ▸ htag) hns
          · exact hr
        have hceilr :
            cfg.maxframes = 0 ∨ (nr + 1) + (inlineChain rest).length ≤ cfg.maxframes := by
          rcases hceil with h0 | hle
          · exact Or.inl h0
          · right
            rw [hchainc] at hle
            simp only [List.length_cons] at hle
            omega
        obtain ⟨ihmap, ihnr⟩ := ih s (nr + 1) hexr hceilr
        simp only [inline_loop, if_neg hcond, hf, if_true, if_neg hs]
        constructor
        · simp only [List.map_cons, ihmap, hchainc, print_frame]
        · simp only [ihnr, hchainc, List.length_cons]
          omega
    · have hns : s.tag ≠ Tag.subprogram := by
        intro he
        rw [he] at hf
        exact hf rfl
      have hexr : ∃ u ∈ rest, u.tag = Tag.subprogram := by
        refine ⟨t, ?_, htag⟩
        rcases List.mem_cons.mp ht with he | hr
        · exact absurd (he ▸ htag) hns
        · exact hr
      have hchainc : inlineChain (s :: rest) = inlineChain rest := by
        simp only [Bool.not_eq_true] at hf
        simp only [inlineChain, hf, Bool.false_eq_true, if_false]
      have hceilr :
          cfg.maxframes = 0 ∨ nr + (inlineChain rest).length ≤ cfg.maxframes := by
        rw [hchainc] at hceil
        exact hceil
      obtain ⟨ihmap, ihnr⟩ := ih last nr hexr hceilr
      simp only [Bool.not_eq_true] at hf
      simp only [inline_loop, if_neg hcond, hf, Bool.false_eq_true, if_false]
      exact ⟨by rw [ihmap, hchainc], by rw [ihnr, hchainc]⟩

/-- C6.  With inline expansion, a resolved DIE whose scope chain contains
a subprogram prints exactly K frames for the one captured PC — the
innermost frame plus one per function-like scope up to and including the
first subprogram, skipping all other tags — and each printed frame
advances the frame number that the per-thread ceiling is checked
against. -/
theorem inline_expansion (cfg : Config) (w : World) (pc : Nat)
    (symname : Option String) (cudie : Option Die) (die : Die) (rest : List Die)
    (nr : Nat)
    (hscopes : w.getscopes_die die = die :: rest)
    (hroot : ∃ s ∈ rest, s.tag = Tag.subprogram)
    (hceil : cfg.maxframes = 0 ∨ nr + (1 + (inlineChain rest).length) ≤ cfg.maxframes) :
    (print_inline_frames cfg w nr pc symname cudie die).1.length
        = 1 + (inlineChain rest).length ∧
    (print_inline_frames cfg w nr pc symname cudie die).2
        = nr + (1 + (inlineChain rest).length) ∧
    (print_inline_frames cfg w nr pc symname cudie die).1.map (fun l => l.name)
        = rendered_name cfg w symname
            :: (inlineChain rest).map (fun s => rendered_name cfg w (die_name s)) := by
  have hceilr :
      cfg.maxframes = 0 ∨ (nr + 1) + (inlineChain rest).length ≤ cfg.maxframes := by
    rcases hceil with h0 | hle
    · exact Or.inl h0
    · right
      omega
  obtain ⟨hmap, hnr⟩ := inline_loop_chain cfg w pc cudie rest die (nr + 1) hroot hceilr
  have hlen :
      (inline_loop cfg w pc cudie rest die (nr + 1)).1.length
        = (inlineChain rest).length := by
    have := congrArg List.length hmap
    simpa using this
  simp only [print_inline_frames, hscopes]
  refine ⟨?_, ?_, ?_⟩
  · simp only [List.length_cons, hlen]
    omega
  · rw [hnr]
    omega
  · simp only [List.map_cons, hmap, print_frame]

/-- Witness for C6: the chain prints exactly three frames (K = 3). -/
theorem inline_expansion_witness :
    (w6.getscopes_die die_inl
        = die_inl :: [die_lex, die_mid, die_sub, die_beyond] ∧
     (∃ s ∈ [die_lex, die_mid, die_sub, die_beyond], s.tag = Tag.subprogram) ∧
     (cfg0.maxframes = 0 ∨
       0 + (1 + (inlineChain [die_lex, die_mid, die_sub, die_beyond]).length)
         ≤ cfg0.maxframes)) ∧
    ((print_inline_frames cfg0 w6 0 0x4010 (some "inner") none die_inl).1.length
        = 1 + (inlineChain [die_lex, die_mid, die_sub, die_beyond]).length ∧
     (print_inline_frames cfg0 w6 0 0x4010 (some "inner") none die_inl).2
        = 0 + (1 + (inlineChain [die_lex, die_mid, die_sub, die_beyond]).length) ∧
     (print_inline_frames cfg0 w6 0 0x4010 (some "inner") none die_inl).1.map
          (fun l => l.name)
        = rendered_name cfg0 w6 (some "inner")
            :: (inlineChain [die_lex, die_mid, die_sub, die_beyond]).map
                (fun s => rendered_name cfg0 w6 (die_name s))) :=
  ⟨⟨by decide, by decide, by decide⟩,
    inline_expansion cfg0 w6 0x4010 (some "inner") none die_inl
      [die_lex, die_mid, die_sub, die_beyond] 0
      (by decide) (by decide) (by decide)⟩

/-- C7.  Symbol-name resolution precedence: quiet mode (or a missing
module) yields no name; with debug-name mode the scope chain at the
adjusted PC is scanned for the first function-like scope yielding a name
(linkage name if present, else plain name) and that name wins; otherwise,
or when the scan yields nothing, the module's generic
address-to-symbol-name lookup is used. -/
theorem name_resolution_precedence (cfg : Config) (w : World) (m : Module)
    (pc_adjusted : Nat) :
    (cfg.show_quiet = true →
      ∀ mo : Option Module, (resolve cfg w mo pc_adjusted).symname = none) ∧
    ((resolve cfg w none pc_adjusted).symname = none) ∧
    (cfg.show_quiet = false → cfg.show_debugname = true →
      ∀ (n : String) (dd : Die),
        find_scope_name (scopes_at w m pc_adjusted) = some (n, dd) →
          (resolve cfg w (some m) pc_adjusted).symname = some n ∧
          (resolve cfg w (some m) pc_adjusted).die = some dd) ∧
    (cfg.show_quiet = false → cfg.show_debugname = true →
      find_scope_name (scopes_at w m pc_adjusted) = none →
        (resolve cfg w (some m) pc_adjusted).symname
          = w.module_addrname m pc_adjusted) ∧
    (cfg.show_quiet = false → cfg.show_debugname = false →
        (resolve cfg w (some m) pc_adjusted).symname
          = w.module_addrname m pc_adjusted) ∧
    (∀ (t : Tag) (n : String) (dn : Option String),
        die_name ⟨t, some n, dn⟩ = some n) ∧
    (∀ (t : Tag) (dn : Option String), die_name ⟨t, none, dn⟩ = dn) := by
  refine ⟨?_, rfl, ?_, ?_, ?_, fun t n dn => rfl, fun t dn => rfl⟩
  · intro hq mo
    cases mo with
    | none => rfl
    | some m1 =>
      simp only [resolve, hq, if_true]
  · intro hq hd n dd hfind
    simp only [resolve, hq, Bool.false_eq_true, if_false, hd, if_true, hfind]
    exact ⟨trivial, trivial⟩
  · intro hq hd hfind
    simp only [resolve, hq, Bool.false_eq_true, if_false, hd, if_true, hfind]
  · intro hq hd
    simp only [resolve, hq, hd, Bool.false_eq_true, if_false]

/-- Witness for C7 at module 1 and adjusted PC 0x400f. -/
theorem name_resolution_precedence_witness :
    ((cfg7.show_quiet = true →
        ∀ mo : Option Module, (resolve cfg7 w7 mo 0x400f).symname = none) ∧
     ((resolve cfg7 w7 none 0x400f).symname = none) ∧
     (cfg7.show_quiet = false → cfg7.show_debugname = true →
        ∀ (n : String) (dd : Die),
          find_scope_name (scopes_at w7 1 0x400f) = some (n, dd) →
            (resolve cfg7 w7 (some 1) 0x400f).symname = some n ∧
            (resolve cfg7 w7 (some 1) 0x400f).die = some dd) ∧
     (cfg7.show_quiet = false → cfg7.show_debugname = true →
        find_scope_name (scopes_at w7 1 0x400f) = none →
          (resolve cfg7 w7 (some 1) 0x400f).symname = w7.module_addrname 1 0x400f) ∧
     (cfg7.show_quiet = false → cfg7.show_debugname = false →
          (resolve cfg7 w7 (some 1) 0x400f).symname = w7.module_addrname 1 0x400f) ∧
     (∀ (t : Tag) (n : String) (dn : Option String),
          die_name ⟨t, some n, dn⟩ = some n) ∧
     (∀ (t : Tag) (dn : Option String), die_name ⟨t, none, dn⟩ = dn)) ∧
    find_scope_name (scopes_at w7 1 0x400f) = some ("_Z4funcv", scope_named) ∧
    (resolve cfg7 w7 (some 1) 0x400f).symname = some "_Z4funcv" :=
  ⟨name_resolution_precedence cfg7 w7 1 0x400f, by decide,
    ((name_resolution_precedence cfg7 w7 1 0x400f).2.2.1 rfl rfl "_Z4funcv"
        scope_named (by decide)).1⟩

/-- Counterexample to C8 as stated: in scenario A (frames 0x4010, 0x4020,
0x4030, none an activation, ceiling 256, no resolvable names) the three
printed lines carry the *captured* addresses 0x4010, 0x4020, 0x4030 — not
the adjusted values 0x400f, 0x401f, 0x402f the claim asserts.  The
adjustment is applied only to the PC used for resolution; `print_frame`
prints the unadjusted `pc`. -/
theorem scenario_a_counterexample :
    runA.reports.map (fun r => r.lines.map (fun l => l.pc))
        = [[0x4010, 0x4020, 0x4030]] ∧
    ¬ runA.reports.map (fun r => r.lines.map (fun l => l.pc))
        = [[0x400f, 0x401f, 0x402f]] := by
  decide

/-- C8 amended: scenario A prints exactly three frame lines whose
addresses are the captured PCs 0x4010, 0x4020, 0x4030, with no names, and
the run exits OK (0); the *adjusted* PCs used for resolution are 0x400f,
0x401f, 0x402f. -/
theorem scenario_a_amended :
    runA.reports
        = [{ lines := [⟨0, 0x4010, none⟩, ⟨1, 0x4020, none⟩, ⟨2, 0x4030, none⟩],
             diags := [], shown := true }] ∧
    runA.status = 0 ∧
    threadA.avail.map (fun f => adjust_pc f.pc f.isactivation)
        = [0x400f, 0x401f, 0x402f] := by
  decide

/-- A cached (non-zero) width is returned unchanged, whatever the module
argument. -/
theorem get_addr_width_cached (w : World) (mod : Option Module) (width : Nat)
    (h : width ≠ 0) : get_addr_width w mod width = width := by
  simp only [get_addr_width, if_neg h]

/-- After any first call, all later width computations return the cached
value. -/
theorem addr_width_run_cached (w : World) :
    ∀ (mods : List (Option Module)) (width : Nat), width ≠ 0 →
      addr_width_run w mods width = mods.map (fun _ => width) := by
  intro mods
  induction mods with
  | nil => intro width _; rfl
  | cons m rest ih =>
    intro width h
    simp only [addr_width_run, get_addr_width_cached w m width h, List.map_cons]
    exact congrArg _ (ih width h)

/-- The first call's width: from that call's module when its class is
determinable (8 for 32-bit, else 16), and 16 when it is not. -/
theorem get_addr_width_first (w : World) (mod : Option Module) :
    get_addr_width w mod 0
        = (match mod with
           | some m =>
             match w.module_class32 m with
             | some true => 8
             | some false => 16
             | none => 16
           | none => 16) ∧
    get_addr_width w mod 0 ≠ 0 := by
  cases mod with
  | none => exact ⟨rfl, by simp [get_addr_width]⟩
  | some m =>
    cases h : w.module_class32 m with
    | none => simp [get_addr_width, h]
    | some b =>
      cases b with
      | true => simp [get_addr_width, h]
      | false => simp [get_addr_width, h]

/-- Counterexample to C9 as stated: with the first call on a module whose
class cannot be determined and the second on a 32-bit module, the code
returns 16 for both calls — the claim's "width from the first module for
which it can be determined" would be 8, but no call ever returns 8,
because the very first call permanently caches the 16 fallback. -/
theorem addr_width_counterexample :
    addr_width_run w9 [some 0, some 1] 0 = [16, 16] ∧
    claimed_addr_width w9 [some 0, some 1] = 8 ∧
    ¬ addr_width_run w9 [some 0, some 1] 0
        = [claimed_addr_width w9 [some 0, some 1],
           claimed_addr_width w9 [some 0, some 1]] := by
  decide

/-- C9 amended: the width is computed at most once per run — at the first
call, from that call's module (8 hex digits for a determinable 32-bit ELF
class, else 16, including when the class cannot be determined) — and every
subsequent call returns that same cached value regardless of its module
argument. -/
theorem addr_width_first_call (w : World) (m0 : Option Module)
    (rest : List (Option Module)) :
    addr_width_run w (m0 :: rest) 0
        = get_addr_width w m0 0 :: rest.map (fun _ => get_addr_width w m0 0) ∧
    get_addr_width w m0 0
        = (match m0 with
           | some m =>
             match w.module_class32 m with
             | some true => 8
             | some false => 16
             | none => 16
           | none => 16) := by
  obtain ⟨h1, h2⟩ := get_addr_width_first w m0
  refine ⟨?_, h1⟩
  simp only [addr_width_run]
  exact congrArg _ (addr_width_run_cached w rest _ h2)

end Stack
